import Mathlib

/-!
Shallow embedding of the finite-field / elliptic-curve core of
`src/ecc/src/main.rs` (a Rust port of the FieldElement / Point classes of
"Programming Bitcoin").

Modelling conventions:
* Rust `i32` values are modelled as unbounded `Int` (the behaviour in the
  absence of machine overflow); Rust `%` on `i32` is `Int.tmod` and `/` is
  `Int.tdiv` (both truncate towards zero, as in Rust).
* Rust `Result<T, &'static str>` is `Except String T`.
* A Rust panic (division by zero inside `mod_inverse`) is modelled as the
  distinguished result `none` of the loop, surfaced by `truediv` as the
  error string "panic: attempt to divide by zero".
* The `while` loops of `mod_inverse` and `Point::rmul` are modelled with an
  explicit iteration budget that provably dominates the number of loop
  iterations the Rust loop performs (`m.natAbs + 1` bounds the Euclidean
  remainder chain, and `coefficient` bounds the number of binary digits of
  `coefficient`), so the budget-exhausted branch is unreachable; this keeps
  every definition structurally recursive and hence computable by `decide`.
* The source calls `FieldElement::zero()` with its `magnitude` argument
  missing inside `Point::new`, and calls a nonexistent method
  `self.x.infinity()` inside `Point::add`; the program text does not compile
  as written.  We model the placeholder element as `FieldElement.zero 0`
  and read `self.x.infinity()` as the point's `infinity` flag, the only
  reading under which the file's own tests (point addition and scalar
  multiplication through points at infinity) can pass.
-/

deriving instance DecidableEq for Except

/-- `struct FieldElement { value: i32, magnitude: i32, normalized: bool }`. -/
structure FieldElement where
  value : Int
  magnitude : Int
  normalized : Bool
deriving DecidableEq, Repr

/-- `FieldElement::new`: rejects `magnitude <= 0 || value < 0 || value >= magnitude`,
otherwise sets `normalized` to `magnitude <= 1`. -/
def FieldElement.new (value magnitude : Int) : Except String FieldElement :=
  if magnitude ≤ 0 ∨ value < 0 ∨ value ≥ magnitude then
    .error "Invalid magnitude or value"
  else
    .ok { value := value, magnitude := magnitude, normalized := decide (magnitude ≤ 1) }

/-- `FieldElement::zero`: builds the element directly, with no validation. -/
def FieldElement.zero (magnitude : Int) : FieldElement :=
  { value := 0, magnitude := magnitude, normalized := decide (magnitude ≤ 1) }

/-- The body of the `while a0 > 1` loop of `mod_inverse`, with an explicit
iteration budget.  State `(a0, m0, x0, x1)`; one iteration performs
`q = a0 / m0; t = m0; m0 = a0 % m0; a0 = t; t = x0; x0 = x1 - q * x0; x1 = t`.
`none` models the Rust panic on `a0 / 0`; the budget branch also yields
`none` but is unreachable for the budget `mod_inverse` supplies, because
`|m0|` strictly decreases across an iteration. -/
def modInverseLoop : Nat → Int → Int → Int → Int → Option (Int × Int × Int × Int)
  | budget, a0, m0, x0, x1 =>
    if a0 > 1 then
      if m0 = 0 then
        none
      else
        match budget with
        | 0 => none
        | b + 1 =>
          modInverseLoop b m0 (a0.tmod m0) (x1 - (a0.tdiv m0) * x0) x0
    else
      some (a0, m0, x0, x1)

/-- `fn mod_inverse(a: i32, m: i32) -> i32`: iterative extended Euclidean
algorithm; returns `0` for `m == 1`, and adds `m` to a negative result. -/
def mod_inverse (a m : Int) : Option Int :=
  if m = 1 then
    some 0
  else
    match modInverseLoop (m.natAbs + 1) a m 0 1 with
    | none => none
    | some (_, _, _, x1) => some (if x1 < 0 then x1 + m else x1)

/-- `FieldElement::add`. -/
def FieldElement.add (self other : FieldElement) : Except String FieldElement :=
  if self.magnitude ≠ other.magnitude then
    .error "Cannot add two numbers in different Fields"
  else
    match FieldElement.new ((self.value + other.value).tmod self.magnitude) self.magnitude with
    | .error e => .error e
    | .ok new_element =>
      if new_element.magnitude ≠ self.magnitude then
        .error "Invalid magnitude of result FieldElement"
      else if new_element.normalized ≠ decide (new_element.magnitude ≤ 1) then
        .error "Invalid normalization of result FieldElement"
      else
        .ok new_element

/-- `FieldElement::sub`: the raw `%` result is shifted by `magnitude` when negative. -/
def FieldElement.sub (self other : FieldElement) : Except String FieldElement :=
  if self.magnitude ≠ other.magnitude then
    .error "Cannot subtract two numbers in different Fields"
  else
    let new_value := (self.value - other.value).tmod self.magnitude
    let new_value := if new_value < 0 then new_value + self.magnitude else new_value
    match FieldElement.new new_value self.magnitude with
    | .error e => .error e
    | .ok new_element =>
      if new_element.magnitude ≠ self.magnitude then
        .error "Invalid magnitude of result FieldElement"
      else if new_element.normalized ≠ decide (new_element.magnitude ≤ 1) then
        .error "Invalid normalization of result FieldElement"
      else
        .ok new_element

/-- `FieldElement::mul`. -/
def FieldElement.mul (self other : FieldElement) : Except String FieldElement :=
  if self.magnitude ≠ other.magnitude then
    .error "Cannot multiply two numbers in different Fields"
  else
    match FieldElement.new ((self.value * other.value).tmod self.magnitude) self.magnitude with
    | .error e => .error e
    | .ok new_element =>
      if new_element.magnitude ≠ self.magnitude then
        .error "Invalid magnitude of result FieldElement"
      else if new_element.normalized ≠ decide (new_element.magnitude ≤ 1) then
        .error "Invalid normalization of result FieldElement"
      else
        .ok new_element

/-- `FieldElement::pow`: rejects negative exponents; `value.pow(exp as u32) % magnitude`. -/
def FieldElement.pow (self : FieldElement) (exp : Int) : Except String FieldElement :=
  if exp < 0 then
    .error "Exponent must be non-negative"
  else
    match FieldElement.new ((self.value ^ exp.toNat).tmod self.magnitude) self.magnitude with
    | .error e => .error e
    | .ok new_element =>
      if new_element.magnitude ≠ self.magnitude then
        .error "Invalid magnitude of result FieldElement"
      else if new_element.normalized ≠ decide (new_element.magnitude ≤ 1) then
        .error "Invalid normalization of result FieldElement"
      else
        .ok new_element

/-- `FieldElement::truediv`: `(self.value * mod_inverse(other.value, self.magnitude)) % self.magnitude`.
There is no zero-divisor check in the source. -/
def FieldElement.truediv (self other : FieldElement) : Except String FieldElement :=
  if self.magnitude ≠ other.magnitude then
    .error "Cannot divide two numbers in different Fields"
  else
    match mod_inverse other.value self.magnitude with
    | none => .error "panic: attempt to divide by zero"
    | some inv =>
      match FieldElement.new ((self.value * inv).tmod self.magnitude) self.magnitude with
      | .error e => .error e
      | .ok new_element =>
        if new_element.magnitude ≠ self.magnitude then
          .error "Invalid magnitude of result FieldElement"
        else if new_element.normalized ≠ decide (new_element.magnitude ≤ 1) then
          .error "Invalid normalization of result FieldElement"
        else
          .ok new_element

/-- `FieldElement::rmul` (integer coefficient): `(value * coefficient) % magnitude`. -/
def FieldElement.rmul (self : FieldElement) (coefficient : Int) : Except String FieldElement :=
  match FieldElement.new ((self.value * coefficient).tmod self.magnitude) self.magnitude with
  | .error e => .error e
  | .ok new_element =>
    if new_element.magnitude ≠ self.magnitude then
      .error "Invalid magnitude of result FieldElement"
    else if new_element.normalized ≠ decide (new_element.magnitude ≤ 1) then
      .error "Invalid normalization of result FieldElement"
    else
      .ok new_element

/-- `struct Point { x, y: Option<FieldElement>, a, b: FieldElement, infinity: bool }`. -/
structure Point where
  x : Option FieldElement
  y : Option FieldElement
  a : FieldElement
  b : FieldElement
  infinity : Bool
deriving DecidableEq, Repr

/-- The curve-membership test of `Point::new`:
`y_squared != x_cubed + (a * x) + b`, computed with the fallible field
operations, failing exactly when the equation does not hold. -/
def curveEquationCheck (xv yv a b : FieldElement) : Except String Unit :=
  match xv.pow 3 with
  | .error e => .error e
  | .ok x_cubed =>
    match yv.pow 2 with
    | .error e => .error e
    | .ok y_squared =>
      match a.mul xv with
      | .error e => .error e
      | .ok ax =>
        match x_cubed.add ax with
        | .error e => .error e
        | .ok t1 =>
          match t1.add b with
          | .error e => .error e
          | .ok equation =>
            if y_squared ≠ equation then .error "Point is not on the curve"
            else .ok ()

/-- `Point::new`: runs the curve check only when both coordinates are
present; always stores `Some(...)` coordinates, substituting the zero
placeholder for an absent one, and sets `infinity = x.is_none()`. -/
def Point.new (x y : Option FieldElement) (a b : FieldElement) : Except String Point :=
  match (match x, y with
         | some xv, some yv => curveEquationCheck xv yv a b
         | _, _ => .ok ()) with
  | .error e => .error e
  | .ok _ =>
    .ok { x := some (x.getD (FieldElement.zero 0)),
          y := some (y.getD (FieldElement.zero 0)),
          a := a, b := b, infinity := x.isNone }

/-- The point value `Point::new(None, None, a, b)` produces. -/
def Point.pointAtInfinity (a b : FieldElement) : Point :=
  { x := some (FieldElement.zero 0), y := some (FieldElement.zero 0),
    a := a, b := b, infinity := true }

/-- Coordinate read inside `Point::add` (the source uses `self.x` directly;
points built by `Point::new` always carry `some` coordinates). -/
def Point.xv (p : Point) : FieldElement := p.x.getD (FieldElement.zero 0)

/-- Coordinate read inside `Point::add`. -/
def Point.yv (p : Point) : FieldElement := p.y.getD (FieldElement.zero 0)

/-- `Point::add`: curve-parameter guard, the two infinity cases, the
vertical-chord case, point doubling, the general chord, and the
fall-through `Err("Unexpected condition reached")`. -/
def Point.add (self other : Point) : Except String Point :=
  if self.a ≠ other.a ∨ self.b ≠ other.b then
    .error "Points are not on the same curve"
  else if self.infinity then
    .ok other
  else if other.infinity then
    .ok self
  else if self.x = other.x ∧ self.y ≠ other.y then
    Point.new none none self.a self.b
  else if self = other then
    -- s = (3 * self.x.pow(2) + self.a) / (2 * self.y)
    -- x3 = s.pow(2) - 2 * self.x ; y3 = s * (self.x - x3) - self.y
    match self.xv.pow 2 with
    | .error e => .error e
    | .ok x_sq =>
      match x_sq.rmul 3 with
      | .error e => .error e
      | .ok three_x_sq =>
        match three_x_sq.add self.a with
        | .error e => .error e
        | .ok num =>
          match self.yv.rmul 2 with
          | .error e => .error e
          | .ok two_y =>
            match num.truediv two_y with
            | .error e => .error e
            | .ok s =>
              match s.pow 2 with
              | .error e => .error e
              | .ok s_sq =>
                match self.xv.rmul 2 with
                | .error e => .error e
                | .ok two_x =>
                  match s_sq.sub two_x with
                  | .error e => .error e
                  | .ok x3 =>
                    match self.xv.sub x3 with
                    | .error e => .error e
                    | .ok dx =>
                      match s.mul dx with
                      | .error e => .error e
                      | .ok sdx =>
                        match sdx.sub self.yv with
                        | .error e => .error e
                        | .ok y3 => Point.new (some x3) (some y3) self.a self.b
  else if self.x ≠ other.x then
    -- s = (other.y - self.y) / (other.x - self.x)
    -- x3 = s.pow(2) - self.x - other.x ; y3 = s * (self.x - x3) - self.y
    match other.yv.sub self.yv with
    | .error e => .error e
    | .ok dy =>
      match other.xv.sub self.xv with
      | .error e => .error e
      | .ok dx =>
        match dy.truediv dx with
        | .error e => .error e
        | .ok s =>
          match s.pow 2 with
          | .error e => .error e
          | .ok s_sq =>
            match s_sq.sub self.xv with
            | .error e => .error e
            | .ok t1 =>
              match t1.sub other.xv with
              | .error e => .error e
              | .ok x3 =>
                match self.xv.sub x3 with
                | .error e => .error e
                | .ok ddx =>
                  match s.mul ddx with
                  | .error e => .error e
                  | .ok sdx =>
                    match sdx.sub self.yv with
                    | .error e => .error e
                    | .ok y3 => Point.new (some x3) (some y3) self.a self.b
  else
    .error "Unexpected condition reached"

/-- The body of the `while coef > 0` loop of `Point::rmul`, with an explicit
iteration budget (the budget `Point.rmul` passes bounds the binary length of
`coef`, so the exhausted branch is unreachable). -/
def rmulLoop : Nat → Nat → Point → Point → Except String Point
  | budget, coef, current, result =>
    if coef > 0 then
      match budget with
      | 0 => .error "loop budget exhausted"
      | b + 1 =>
        match (if coef &&& 1 = 1 then result.add current else .ok result) with
        | .error e => .error e
        | .ok result' =>
          match current.add current with
          | .error e => .error e
          | .ok current' => rmulLoop b (coef >>> 1) current' result'
    else
      .ok result

/-- `Point::rmul` (double-and-add scalar multiplication over `usize`). -/
def Point.rmul (self : Point) (coefficient : Nat) : Except String Point :=
  match Point.new none none self.a self.b with
  | .error e => .error e
  | .ok result => rmulLoop coefficient coefficient self result

/-- Modelled from the spec: "`P` added to itself `k` times via repeated
`add`", with "an accumulator initialized to the point at infinity" — the
naive reference computation that `Point::rmul` is claimed to refine. -/
def iterAdd (p : Point) : Nat → Except String Point
  | 0 => Point.new none none p.a p.b
  | k + 1 =>
    match iterAdd p k with
    | .error e => .error e
    | .ok acc => acc.add p

/-- Invariant I1 of the spec for a live `FieldElement`: `0 <= value < modulus`
(the `magnitude` field plays the modulus role).  `modulus > 0` (invariant I2)
follows from it. -/
def FieldElement.Valid (x : FieldElement) : Prop :=
  0 ≤ x.value ∧ x.value < x.magnitude

instance (x : FieldElement) : Decidable x.Valid := by
  unfold FieldElement.Valid; infer_instance

theorem FieldElement.Valid.pos {x : FieldElement} (h : x.Valid) : 0 < x.magnitude := by
  rcases h with ⟨h0, h1⟩; omega

/-- The validating constructor succeeds on in-range input and normalises
`normalized` from the magnitude. -/
theorem FieldElement.new_ok {v m : Int} (h0 : 0 ≤ v) (h1 : v < m) :
    FieldElement.new v m = .ok ⟨v, m, decide (m ≤ 1)⟩ := by
  unfold FieldElement.new
  rw [if_neg (by omega : ¬ (m ≤ 0 ∨ v < 0 ∨ v ≥ m))]

theorem FieldElement.add_ok {x y : FieldElement} (h : x.magnitude = y.magnitude)
    (hx : 0 ≤ x.value) (hy : 0 ≤ y.value) (hm : 0 < x.magnitude) :
    x.add y =
      .ok ⟨(x.value + y.value).tmod x.magnitude, x.magnitude, decide (x.magnitude ≤ 1)⟩ := by
  have hnn : 0 ≤ (x.value + y.value).tmod x.magnitude := Int.tmod_nonneg _ (by omega)
  have hlt : (x.value + y.value).tmod x.magnitude < x.magnitude := Int.tmod_lt_of_pos _ hm
  unfold FieldElement.add
  rw [if_neg (by omega : ¬ x.magnitude ≠ y.magnitude), FieldElement.new_ok hnn hlt]
  simp

theorem FieldElement.mul_ok {x y : FieldElement} (h : x.magnitude = y.magnitude)
    (hx : 0 ≤ x.value) (hy : 0 ≤ y.value) (hm : 0 < x.magnitude) :
    x.mul y =
      .ok ⟨(x.value * y.value).tmod x.magnitude, x.magnitude, decide (x.magnitude ≤ 1)⟩ := by
  have hnn : 0 ≤ (x.value * y.value).tmod x.magnitude :=
    Int.tmod_nonneg _ (by positivity)
  have hlt : (x.value * y.value).tmod x.magnitude < x.magnitude := Int.tmod_lt_of_pos _ hm
  unfold FieldElement.mul
  rw [if_neg (by omega : ¬ x.magnitude ≠ y.magnitude), FieldElement.new_ok hnn hlt]
  simp

theorem FieldElement.sub_ok {x y : FieldElement} (h : x.magnitude = y.magnitude)
    (hx : x.Valid) (hy : y.Valid) :
    x.sub y =
      .ok ⟨(if (x.value - y.value).tmod x.magnitude < 0 then
              (x.value - y.value).tmod x.magnitude + x.magnitude
            else (x.value - y.value).tmod x.magnitude),
           x.magnitude, decide (x.magnitude ≤ 1)⟩ := by
  obtain ⟨hx0, hx1⟩ := hx
  obtain ⟨hy0, hy1⟩ := hy
  have hm : 0 < x.magnitude := by omega
  have hd : (x.value - y.value).tmod x.magnitude = x.value - y.value := by
    rcases le_or_lt y.value x.value with hc | hc
    · exact Int.tmod_eq_of_lt (by omega) (by omega)
    · have hneg : x.value - y.value = -(y.value - x.value) := by ring
      rw [hneg, Int.tmod_def, Int.neg_tdiv,
          Int.tdiv_eq_zero_of_lt (by omega : (0:Int) ≤ y.value - x.value) (by omega)]
      ring
  have hnn : 0 ≤ (if (x.value - y.value).tmod x.magnitude < 0 then
      (x.value - y.value).tmod x.magnitude + x.magnitude
    else (x.value - y.value).tmod x.magnitude) := by
    rw [hd]; split <;> omega
  have hlt : (if (x.value - y.value).tmod x.magnitude < 0 then
      (x.value - y.value).tmod x.magnitude + x.magnitude
    else (x.value - y.value).tmod x.magnitude) < x.magnitude := by
    rw [hd]; split <;> omega
  unfold FieldElement.sub
  rw [if_neg (by omega : ¬ x.magnitude ≠ y.magnitude)]
  simp only []
  rw [FieldElement.new_ok hnn hlt]
  simp

theorem FieldElement.pow_ok {x : FieldElement} {e : Int} (he : 0 ≤ e)
    (hx : 0 ≤ x.value) (hm : 0 < x.magnitude) :
    x.pow e =
      .ok ⟨(x.value ^ e.toNat).tmod x.magnitude, x.magnitude, decide (x.magnitude ≤ 1)⟩ := by
  have hnn : 0 ≤ (x.value ^ e.toNat).tmod x.magnitude :=
    Int.tmod_nonneg _ (by positivity)
  have hlt : (x.value ^ e.toNat).tmod x.magnitude < x.magnitude := Int.tmod_lt_of_pos _ hm
  unfold FieldElement.pow
  rw [if_neg (by omega : ¬ e < 0), FieldElement.new_ok hnn hlt]
  simp

theorem FieldElement.rmul_ok {x : FieldElement} {c : Int} (hc : 0 ≤ c)
    (hx : 0 ≤ x.value) (hm : 0 < x.magnitude) :
    x.rmul c =
      .ok ⟨(x.value * c).tmod x.magnitude, x.magnitude, decide (x.magnitude ≤ 1)⟩ := by
  have hnn : 0 ≤ (x.value * c).tmod x.magnitude := Int.tmod_nonneg _ (by positivity)
  have hlt : (x.value * c).tmod x.magnitude < x.magnitude := Int.tmod_lt_of_pos _ hm
  unfold FieldElement.rmul
  rw [FieldElement.new_ok hnn hlt]
  simp

theorem emod_chain (A B C m : Int) :
    ((A % m + B % m) % m + C) % m = (A + B + C) % m := by
  conv_rhs => rw [Int.add_emod (A + B) C, Int.add_emod A B]
  rw [Int.add_emod ((A % m + B % m) % m) C]
  rw [Int.emod_emod_of_dvd _ dvd_rfl]

theorem curveEquationCheck_spec {xv yv a b : FieldElement}
    (hx : xv.Valid) (hy : yv.Valid) (ha : a.Valid) (hb : b.Valid)
    (hma : a.magnitude = xv.magnitude) (hmb : b.magnitude = xv.magnitude)
    (hmy : yv.magnitude = xv.magnitude) :
    curveEquationCheck xv yv a b =
      if (yv.value ^ 2) % xv.magnitude =
          (xv.value ^ 3 + a.value * xv.value + b.value) % xv.magnitude then
        .ok ()
      else .error "Point is not on the curve" := by
  obtain ⟨vx, m, nx⟩ := xv
  obtain ⟨vy, my, ny⟩ := yv
  obtain ⟨va, ma, na⟩ := a
  obtain ⟨vb, mb, nb⟩ := b
  simp only at hma hmb hmy ⊢
  simp only [hma, hmb, hmy]
  obtain ⟨hx0, hx1⟩ := hx
  obtain ⟨hy0, hy1⟩ := hy
  obtain ⟨ha0, ha1⟩ := ha
  obtain ⟨hb0, hb1⟩ := hb
  simp only at hx0 hx1 hy0 hy1 ha0 ha1 hb0 hb1
  rw [hma] at ha1
  rw [hmb] at hb1
  rw [hmy] at hy1
  have hm : (0:Int) < m := by omega
  unfold curveEquationCheck
  rw [FieldElement.pow_ok (by norm_num) hx0 hm]
  simp only [show (3:Int).toNat = 3 from rfl]
  rw [FieldElement.pow_ok (by norm_num) hy0 hm]
  simp only [show (2:Int).toNat = 2 from rfl]
  rw [FieldElement.mul_ok (x := ⟨va, m, na⟩) (y := ⟨vx, m, nx⟩) rfl ha0 hx0 hm]
  simp only []
  rw [FieldElement.add_ok (x := ⟨(vx ^ 3).tmod m, m, decide (m ≤ 1)⟩)
      (y := ⟨(va * vx).tmod m, m, decide (m ≤ 1)⟩) rfl
      (Int.tmod_nonneg _ (pow_nonneg hx0 3)) (Int.tmod_nonneg _ (mul_nonneg ha0 hx0)) hm]
  simp only []
  rw [FieldElement.add_ok
      (x := ⟨((vx ^ 3).tmod m + (va * vx).tmod m).tmod m, m, decide (m ≤ 1)⟩)
      (y := ⟨vb, m, nb⟩) rfl
      (Int.tmod_nonneg _ (Int.add_nonneg (Int.tmod_nonneg _ (pow_nonneg hx0 3))
        (Int.tmod_nonneg _ (mul_nonneg ha0 hx0)))) hb0 hm]
  simp only []
  have hm0 : (0:Int) ≤ m := le_of_lt hm
  have hmne : m ≠ 0 := by omega
  rw [Int.tmod_eq_emod (pow_nonneg hy0 2) hm0,
      Int.tmod_eq_emod (pow_nonneg hx0 3) hm0,
      Int.tmod_eq_emod (mul_nonneg ha0 hx0) hm0]
  rw [Int.tmod_eq_emod
      (Int.add_nonneg (Int.emod_nonneg _ hmne) (Int.emod_nonneg _ hmne)) hm0]
  rw [Int.tmod_eq_emod
      (Int.add_nonneg (Int.emod_nonneg _ hmne) hb0) hm0]
  rw [emod_chain (vx ^ 3) (va * vx) vb m]
  by_cases hc : vy ^ 2 % m = (vx ^ 3 + va * vx + vb) % m <;>
    simp [hc, FieldElement.mk.injEq]

theorem Point.new_some_some {xv yv a b : FieldElement}
    (hx : xv.Valid) (hy : yv.Valid) (ha : a.Valid) (hb : b.Valid)
    (hma : a.magnitude = xv.magnitude) (hmb : b.magnitude = xv.magnitude)
    (hmy : yv.magnitude = xv.magnitude) :
    Point.new (some xv) (some yv) a b =
      if (yv.value ^ 2) % xv.magnitude =
          (xv.value ^ 3 + a.value * xv.value + b.value) % xv.magnitude then
        .ok ⟨some xv, some yv, a, b, false⟩
      else .error "Point is not on the curve" := by
  unfold Point.new
  simp only []
  rw [curveEquationCheck_spec hx hy ha hb hma hmb hmy]
  by_cases hc : (yv.value ^ 2) % xv.magnitude =
      (xv.value ^ 3 + a.value * xv.value + b.value) % xv.magnitude <;>
    simp [hc]

theorem Point.new_none_left (y : Option FieldElement) (a b : FieldElement) :
    Point.new none y a b =
      .ok ⟨some (FieldElement.zero 0), some (y.getD (FieldElement.zero 0)), a, b, true⟩ := by
  cases y <;> rfl

theorem Point.new_some_none (x a b : FieldElement) :
    Point.new (some x) none a b =
      .ok ⟨some x, some (FieldElement.zero 0), a, b, false⟩ := rfl

theorem Point.new_none_none (a b : FieldElement) :
    Point.new none none a b = .ok (Point.pointAtInfinity a b) := rfl

/-- C1: the spec demands `x.div(zero)` fail with `DivisionByZero`, and marks
the reference's missing zero-divisor check as a defect.  The code indeed has
no such check: dividing `FieldElement(3, 5)` by the zero element of the same
field SUCCEEDS, because `mod_inverse(0, 5)` skips its loop and returns `1`,
so `truediv` returns `Ok(FieldElement(3, 5))` instead of an error. -/
theorem truediv_by_zero_divisor_succeeds :
    (FieldElement.mk 3 5 false).truediv (FieldElement.mk 0 5 false) =
      .ok (FieldElement.mk 3 5 false) := by
  rfl

/-- C2 counterexample: with `x` present and `y` absent, `Point::new` does
NOT construct the point at infinity: the curve check is skipped and the
constructed point has `infinity = false` (the flag is `x.is_none()`), with a
zero placeholder stored for the absent `y`. -/
theorem pointNew_absent_y_not_infinity :
    Point.new (some (FieldElement.mk 1 5 false)) none
        (FieldElement.mk 2 5 false) (FieldElement.mk 3 5 false) =
      .ok ⟨some (FieldElement.mk 1 5 false), some (FieldElement.zero 0),
           FieldElement.mk 2 5 false, FieldElement.mk 3 5 false, false⟩ := by
  rfl

/-- C2 (amended): for valid same-field inputs, `Point::new` with both
coordinates present verifies `y² == x³ + a·x + b` through the FieldElement
operations, succeeding exactly when the equation holds mod the field's
magnitude and failing with "Point is not on the curve" otherwise; when `x`
is absent it builds a point with `infinity = true` (coordinates replaced by
zero placeholders, not kept absent); when only `y` is absent the curve check
is also skipped but the point is built with `infinity = false`. -/
theorem pointNew_spec (xv yv a b : FieldElement)
    (hx : xv.Valid) (hy : yv.Valid) (ha : a.Valid) (hb : b.Valid)
    (hma : a.magnitude = xv.magnitude) (hmb : b.magnitude = xv.magnitude)
    (hmy : yv.magnitude = xv.magnitude) :
    ((yv.value ^ 2) % xv.magnitude =
        (xv.value ^ 3 + a.value * xv.value + b.value) % xv.magnitude →
      Point.new (some xv) (some yv) a b = .ok ⟨some xv, some yv, a, b, false⟩) ∧
    ((yv.value ^ 2) % xv.magnitude ≠
        (xv.value ^ 3 + a.value * xv.value + b.value) % xv.magnitude →
      Point.new (some xv) (some yv) a b = .error "Point is not on the curve") ∧
    (∀ y' : Option FieldElement, ∀ a' b' : FieldElement,
      Point.new none y' a' b' =
        .ok ⟨some (FieldElement.zero 0), some (y'.getD (FieldElement.zero 0)), a', b', true⟩) ∧
    (∀ x' a' b' : FieldElement,
      Point.new (some x') none a' b' =
        .ok ⟨some x', some (FieldElement.zero 0), a', b', false⟩) := by
  refine ⟨fun hc => ?_, fun hc => ?_, Point.new_none_left, Point.new_some_none⟩
  · rw [Point.new_some_some hx hy ha hb hma hmb hmy, if_pos hc]
  · rw [Point.new_some_some hx hy ha hb hma hmb hmy, if_neg hc]

/-- C2 witness: the genuinely-on-curve point (1,1) of `y² = x³ + 2x + 3`
over magnitude 5 is accepted by `Point::new`. -/
theorem pointNew_spec_witness :
    Point.new (some (FieldElement.mk 1 5 false)) (some (FieldElement.mk 1 5 false))
        (FieldElement.mk 2 5 false) (FieldElement.mk 3 5 false) =
      .ok ⟨some (FieldElement.mk 1 5 false), some (FieldElement.mk 1 5 false),
           FieldElement.mk 2 5 false, FieldElement.mk 3 5 false, false⟩ :=
  (pointNew_spec (FieldElement.mk 1 5 false) (FieldElement.mk 1 5 false)
      (FieldElement.mk 2 5 false) (FieldElement.mk 3 5 false)
      (by decide) (by decide) (by decide) (by decide) rfl rfl rfl).1 (by decide)

/-- C5: addition, subtraction and multiplication of valid same-field
elements all succeed and are closed: the result is a valid element
(invariant I1) of the same magnitude. -/
theorem field_ops_closure (x y : FieldElement) (hx : x.Valid) (hy : y.Valid)
    (h : x.magnitude = y.magnitude) :
    (∃ z, x.add y = .ok z ∧ z.Valid ∧ z.magnitude = x.magnitude) ∧
    (∃ z, x.sub y = .ok z ∧ z.Valid ∧ z.magnitude = x.magnitude) ∧
    (∃ z, x.mul y = .ok z ∧ z.Valid ∧ z.magnitude = x.magnitude) := by
  have hx0 := hx.1
  have hx1 := hx.2
  have hy0 := hy.1
  have hy1 := hy.2
  have hm : 0 < x.magnitude := hx.pos
  have hsub0 : -x.magnitude < (x.value - y.value).tmod x.magnitude := by
    have h2 := Int.tmod_lt_of_pos (y.value - x.value) hm
    have hneg : (x.value - y.value).tmod x.magnitude =
        -((y.value - x.value).tmod x.magnitude) := by
      rw [Int.tmod_def, Int.tmod_def,
          show x.value - y.value = -(y.value - x.value) from by ring, Int.neg_tdiv]
      ring
    omega
  have hsub1 : (x.value - y.value).tmod x.magnitude < x.magnitude :=
    Int.tmod_lt_of_pos _ hm
  have hvsub : (0 ≤ (if (x.value - y.value).tmod x.magnitude < 0 then
        (x.value - y.value).tmod x.magnitude + x.magnitude
      else (x.value - y.value).tmod x.magnitude)) ∧
      ((if (x.value - y.value).tmod x.magnitude < 0 then
        (x.value - y.value).tmod x.magnitude + x.magnitude
      else (x.value - y.value).tmod x.magnitude) < x.magnitude) := by
    constructor <;> (split <;> omega)
  refine ⟨⟨_, FieldElement.add_ok h hx0 hy0 hm,
            ⟨Int.tmod_nonneg _ (by omega), Int.tmod_lt_of_pos _ hm⟩, rfl⟩,
          ⟨_, FieldElement.sub_ok h ⟨hx0, hx1⟩ ⟨hy0, hy1⟩, hvsub, rfl⟩,
          ⟨_, FieldElement.mul_ok h hx0 hy0 hm,
            ⟨Int.tmod_nonneg _ (mul_nonneg hx0 hy0), Int.tmod_lt_of_pos _ hm⟩, rfl⟩⟩

/-- C5 witness at `FieldElement(5,10)` and `FieldElement(7,10)`. -/
theorem field_ops_closure_witness :
    (FieldElement.mk 5 10 false).Valid ∧
    (∃ z, (FieldElement.mk 5 10 false).add (FieldElement.mk 7 10 false) = .ok z ∧
      z.Valid ∧ z.magnitude = 10) ∧
    (∃ z, (FieldElement.mk 5 10 false).sub (FieldElement.mk 7 10 false) = .ok z ∧
      z.Valid ∧ z.magnitude = 10) ∧
    (∃ z, (FieldElement.mk 5 10 false).mul (FieldElement.mk 7 10 false) = .ok z ∧
      z.Valid ∧ z.magnitude = 10) :=
  ⟨by decide,
   field_ops_closure (FieldElement.mk 5 10 false) (FieldElement.mk 7 10 false)
     (by decide) (by decide) rfl⟩

/-- C8: `pow` fails with the negative-exponent error exactly when the
exponent is negative, and otherwise returns `value ^ exponent mod magnitude`
in the same field. -/
theorem pow_spec (x : FieldElement) (e : Int) (hx : x.Valid) :
    (e < 0 → x.pow e = .error "Exponent must be non-negative") ∧
    (0 ≤ e → x.pow e =
      .ok ⟨(x.value ^ e.toNat).tmod x.magnitude, x.magnitude, decide (x.magnitude ≤ 1)⟩) := by
  constructor
  · intro he
    unfold FieldElement.pow
    rw [if_pos he]
  · intro he
    exact FieldElement.pow_ok he hx.1 hx.pos

/-- C8 witness: `FieldElement(5,10).pow(3) = FieldElement(5,10)` (125 mod 10)
and a negative exponent is rejected. -/
theorem pow_spec_witness :
    (FieldElement.mk 5 10 false).Valid ∧
    (FieldElement.mk 5 10 false).pow 3 = .ok (FieldElement.mk 5 10 false) ∧
    (FieldElement.mk 5 10 false).pow (-1) = .error "Exponent must be non-negative" :=
  ⟨by decide,
   (pow_spec (FieldElement.mk 5 10 false) 3 (by decide)).2 (by norm_num),
   (pow_spec (FieldElement.mk 5 10 false) (-1) (by decide)).1 (by norm_num)⟩

/-- C10: `FieldElement::zero` validates nothing: it returns `value = 0` with
whatever magnitude it is given, so `zero(0)` yields a live element violating
both invariant I1 (`0 <= value < modulus` fails since `0 < 0` is false) and
invariant I2 (`modulus > 0` fails). -/
theorem zero_unvalidated :
    (∀ mg : Int, (FieldElement.zero mg).value = 0 ∧ (FieldElement.zero mg).magnitude = mg) ∧
    ¬ (FieldElement.zero 0).Valid ∧ ¬ (0 < (FieldElement.zero 0).magnitude) :=
  ⟨fun _ => ⟨rfl, rfl⟩, by decide, by decide⟩

theorem FieldElement.new_error_eq {v m : Int} {s : String}
    (h : FieldElement.new v m = .error s) : s = "Invalid magnitude or value" := by
  unfold FieldElement.new at h
  split at h
  · injection h with h
    exact h.symm
  · exact Except.noConfusion h

theorem FieldElement.add_ne_unexpected (x y : FieldElement) :
    x.add y ≠ .error "Unexpected condition reached" := by
  intro h
  unfold FieldElement.add at h
  split at h
  · simp at h
  · split at h
    next e heq =>
      injection h with h2
      subst h2
      exact absurd (FieldElement.new_error_eq heq) (by decide)
    next ne heq =>
      split at h
      · simp at h
      · split at h
        · simp at h
        · simp at h

theorem FieldElement.sub_ne_unexpected (x y : FieldElement) :
    x.sub y ≠ .error "Unexpected condition reached" := by
  intro h
  unfold FieldElement.sub at h
  split at h
  · simp at h
  · simp only [] at h
    split at h
    next e heq =>
      injection h with h2
      subst h2
      exact absurd (FieldElement.new_error_eq heq) (by decide)
    next ne heq =>
      split at h
      · simp at h
      · split at h
        · simp at h
        · simp at h

theorem FieldElement.mul_ne_unexpected (x y : FieldElement) :
    x.mul y ≠ .error "Unexpected condition reached" := by
  intro h
  unfold FieldElement.mul at h
  split at h
  · simp at h
  · split at h
    next e heq =>
      injection h with h2
      subst h2
      exact absurd (FieldElement.new_error_eq heq) (by decide)
    next ne heq =>
      split at h
      · simp at h
      · split at h
        · simp at h
        · simp at h

theorem FieldElement.pow_ne_unexpected (x : FieldElement) (e : Int) :
    x.pow e ≠ .error "Unexpected condition reached" := by
  intro h
  unfold FieldElement.pow at h
  split at h
  · simp at h
  · split at h
    next e' heq =>
      injection h with h2
      subst h2
      exact absurd (FieldElement.new_error_eq heq) (by decide)
    next ne heq =>
      split at h
      · simp at h
      · split at h
        · simp at h
        · simp at h

theorem FieldElement.truediv_ne_unexpected (x y : FieldElement) :
    x.truediv y ≠ .error "Unexpected condition reached" := by
  intro h
  unfold FieldElement.truediv at h
  split at h
  · simp at h
  · split at h
    · simp at h
    · split at h
      next e heq =>
        injection h with h2
        subst h2
        exact absurd (FieldElement.new_error_eq heq) (by decide)
      next ne heq =>
        split at h
        · simp at h
        · split at h
          · simp at h
          · simp at h

theorem FieldElement.rmul_ne_unexpected (x : FieldElement) (c : Int) :
    x.rmul c ≠ .error "Unexpected condition reached" := by
  intro h
  unfold FieldElement.rmul at h
  split at h
  next e heq =>
    injection h with h2
    subst h2
    exact absurd (FieldElement.new_error_eq heq) (by decide)
  next ne heq =>
    split at h
    · simp at h
    · split at h
      · simp at h
      · simp at h

theorem curveEquationCheck_ne_unexpected (xv yv a b : FieldElement) :
    curveEquationCheck xv yv a b ≠ .error "Unexpected condition reached" := by
  intro h
  unfold curveEquationCheck at h
  split at h
  next e heq =>
    injection h with h2
    subst h2
    exact FieldElement.pow_ne_unexpected _ _ heq
  next r heq =>
    split at h
    next e heq2 =>
      injection h with h2
      subst h2
      exact FieldElement.pow_ne_unexpected _ _ heq2
    next r2 heq2 =>
      split at h
      next e heq3 =>
        injection h with h2
        subst h2
        exact FieldElement.mul_ne_unexpected _ _ heq3
      next r3 heq3 =>
        split at h
        next e heq4 =>
          injection h with h2
          subst h2
          exact FieldElement.add_ne_unexpected _ _ heq4
        next r4 heq4 =>
          split at h
          next e heq5 =>
            injection h with h2
            subst h2
            exact FieldElement.add_ne_unexpected _ _ heq5
          next r5 heq5 =>
            split at h
            · simp at h
            · simp at h

theorem pointNew_ne_unexpected (x y : Option FieldElement) (a b : FieldElement) :
    Point.new x y a b ≠ .error "Unexpected condition reached" := by
  intro h
  cases x with
  | none =>
    rw [Point.new_none_left] at h
    simp at h
  | some xv =>
    cases y with
    | none =>
      rw [Point.new_some_none] at h
      simp at h
    | some yv =>
      unfold Point.new at h
      simp only [] at h
      split at h
      next e heq =>
        injection h with h2
        subst h2
        exact curveEquationCheck_ne_unexpected _ _ _ _ heq
      next r heq =>
        simp at h

/-- C6: adding the point at infinity of the same curve returns the other
operand unchanged, in both operand orders.  (When `p` is itself a point at
infinity, "the" point at infinity means the canonical value `Point::new`
constructs, which is what the hypothesis states.) -/
theorem add_infinity_identity (p : Point)
    (hinf : p.infinity = true → p = Point.pointAtInfinity p.a p.b) :
    p.add (Point.pointAtInfinity p.a p.b) = .ok p ∧
    (Point.pointAtInfinity p.a p.b).add p = .ok p := by
  constructor
  · by_cases hp : p.infinity
    · rw [hinf hp]
      unfold Point.add
      simp [Point.pointAtInfinity]
    · unfold Point.add
      simp [Point.pointAtInfinity, hp]
  · unfold Point.add
    simp [Point.pointAtInfinity]

/-- C6 witness at the finite point (1,1) of `y² = x³ + 2x + 3` over
magnitude 5. -/
theorem add_infinity_identity_witness :
    (⟨some (FieldElement.mk 1 5 false), some (FieldElement.mk 1 5 false),
      FieldElement.mk 2 5 false, FieldElement.mk 3 5 false, false⟩ : Point).add
        (Point.pointAtInfinity (FieldElement.mk 2 5 false) (FieldElement.mk 3 5 false)) =
      .ok ⟨some (FieldElement.mk 1 5 false), some (FieldElement.mk 1 5 false),
        FieldElement.mk 2 5 false, FieldElement.mk 3 5 false, false⟩ ∧
    (Point.pointAtInfinity (FieldElement.mk 2 5 false) (FieldElement.mk 3 5 false)).add
        ⟨some (FieldElement.mk 1 5 false), some (FieldElement.mk 1 5 false),
         FieldElement.mk 2 5 false, FieldElement.mk 3 5 false, false⟩ =
      .ok ⟨some (FieldElement.mk 1 5 false), some (FieldElement.mk 1 5 false),
        FieldElement.mk 2 5 false, FieldElement.mk 3 5 false, false⟩ :=
  add_infinity_identity
    ⟨some (FieldElement.mk 1 5 false), some (FieldElement.mk 1 5 false),
     FieldElement.mk 2 5 false, FieldElement.mk 3 5 false, false⟩ (by decide)

/-- C7: the spec (sections 4.2 case 4b and 9) requires doubling a point with
`y == 0` to return the point at infinity, calling the reference's missing
handling a required correction.  The code instead falls into the doubling
branch: on `y² = x³ + 2x + 3` over magnitude 5, the on-curve point (2,0)
(accepted by `Point::new`, first conjunct) doubles to `Ok((2,0))` — a finite
point, not the point at infinity (second conjunct).  The slope division by
`2·y = 0` "succeeds" because of the missing zero-divisor check (C1). -/
theorem double_y_zero_returns_finite_point :
    Point.new (some (FieldElement.mk 2 5 false)) (some (FieldElement.mk 0 5 false))
        (FieldElement.mk 2 5 false) (FieldElement.mk 3 5 false) =
      .ok ⟨some (FieldElement.mk 2 5 false), some (FieldElement.mk 0 5 false),
           FieldElement.mk 2 5 false, FieldElement.mk 3 5 false, false⟩ ∧
    (⟨some (FieldElement.mk 2 5 false), some (FieldElement.mk 0 5 false),
      FieldElement.mk 2 5 false, FieldElement.mk 3 5 false, false⟩ : Point).add
        ⟨some (FieldElement.mk 2 5 false), some (FieldElement.mk 0 5 false),
         FieldElement.mk 2 5 false, FieldElement.mk 3 5 false, false⟩ =
      .ok ⟨some (FieldElement.mk 2 5 false), some (FieldElement.mk 0 5 false),
           FieldElement.mk 2 5 false, FieldElement.mk 3 5 false, false⟩ := by
  constructor
  · rfl
  · rfl

theorem relay_ne {α β : Type} {op : Except String α} {e : String}
    (h1 : op = Except.error e)
    (hop : op ≠ Except.error "Unexpected condition reached") :
    (Except.error e : Except String β) ≠ Except.error "Unexpected condition reached" := by
  intro hc
  injection hc with hc2
  subst hc2
  exact hop h1

/-- C9: `Point::add` never returns through its fall-through branch: no pair
of points whatsoever (in particular no pair of on-curve points of the same
curve) can make it produce `Err("Unexpected condition reached")`: once the
curve parameters agree, neither operand is at infinity, the operands are
unequal, and their `x` coordinates are neither distinct nor equal with
distinct `y`, the two points are structurally equal — a contradiction, so
the branch is unreachable; every other branch produces a different error or
a success. -/
theorem add_never_unexpected (p q : Point) :
    p.add q ≠ .error "Unexpected condition reached" := by
  unfold Point.add
  split
  · simp
  · split
    · simp
    · split
      · simp
      · split
        · exact pointNew_ne_unexpected _ _ _ _
        · split
          · -- point-doubling branch
            cases h1 : p.xv.pow 2 with
            | error e =>
              simp only []
              exact relay_ne h1 (FieldElement.pow_ne_unexpected _ _)
            | ok x_sq =>
              simp only []
              cases h2 : x_sq.rmul 3 with
              | error e =>
                simp only []
                exact relay_ne h2 (FieldElement.rmul_ne_unexpected _ _)
              | ok t3 =>
                simp only []
                cases h3 : t3.add p.a with
                | error e =>
                  simp only []
                  exact relay_ne h3 (FieldElement.add_ne_unexpected _ _)
                | ok num =>
                  simp only []
                  cases h4 : p.yv.rmul 2 with
                  | error e =>
                    simp only []
                    exact relay_ne h4 (FieldElement.rmul_ne_unexpected _ _)
                  | ok two_y =>
                    simp only []
                    cases h5 : num.truediv two_y with
                    | error e =>
                      simp only []
                      exact relay_ne h5 (FieldElement.truediv_ne_unexpected _ _)
                    | ok s =>
                      simp only []
                      cases h6 : s.pow 2 with
                      | error e =>
                        simp only []
                        exact relay_ne h6 (FieldElement.pow_ne_unexpected _ _)
                      | ok s_sq =>
                        simp only []
                        cases h7 : p.xv.rmul 2 with
                        | error e =>
                          simp only []
                          exact relay_ne h7 (FieldElement.rmul_ne_unexpected _ _)
                        | ok two_x =>
                          simp only []
                          cases h8 : s_sq.sub two_x with
                          | error e =>
                            simp only []
                            exact relay_ne h8 (FieldElement.sub_ne_unexpected _ _)
                          | ok x3 =>
                            simp only []
                            cases h9 : p.xv.sub x3 with
                            | error e =>
                              simp only []
                              exact relay_ne h9 (FieldElement.sub_ne_unexpected _ _)
                            | ok dx =>
                              simp only []
                              cases h10 : s.mul dx with
                              | error e =>
                                simp only []
                                exact relay_ne h10 (FieldElement.mul_ne_unexpected _ _)
                              | ok sdx =>
                                simp only []
                                cases h11 : sdx.sub p.yv with
                                | error e =>
                                  simp only []
                                  exact relay_ne h11 (FieldElement.sub_ne_unexpected _ _)
                                | ok y3 =>
                                  simp only []
                                  exact pointNew_ne_unexpected _ _ _ _
          · split
            · -- general-chord branch
              cases h1 : q.yv.sub p.yv with
              | error e =>
                simp only []
                exact relay_ne h1 (FieldElement.sub_ne_unexpected _ _)
              | ok dy =>
                simp only []
                cases h2 : q.xv.sub p.xv with
                | error e =>
                  simp only []
                  exact relay_ne h2 (FieldElement.sub_ne_unexpected _ _)
                | ok dx =>
                  simp only []
                  cases h3 : dy.truediv dx with
                  | error e =>
                    simp only []
                    exact relay_ne h3 (FieldElement.truediv_ne_unexpected _ _)
                  | ok s =>
                    simp only []
                    cases h4 : s.pow 2 with
                    | error e =>
                      simp only []
                      exact relay_ne h4 (FieldElement.pow_ne_unexpected _ _)
                    | ok s_sq =>
                      simp only []
                      cases h5 : s_sq.sub p.xv with
                      | error e =>
                        simp only []
                        exact relay_ne h5 (FieldElement.sub_ne_unexpected _ _)
                      | ok t1 =>
                        simp only []
                        cases h6 : t1.sub q.xv with
                        | error e =>
                          simp only []
                          exact relay_ne h6 (FieldElement.sub_ne_unexpected _ _)
                        | ok x3 =>
                          simp only []
                          cases h7 : p.xv.sub x3 with
                          | error e =>
                            simp only []
                            exact relay_ne h7 (FieldElement.sub_ne_unexpected _ _)
                          | ok ddx =>
                            simp only []
                            cases h8 : s.mul ddx with
                            | error e =>
                              simp only []
                              exact relay_ne h8 (FieldElement.mul_ne_unexpected _ _)
                            | ok sdx =>
                              simp only []
                              cases h9 : sdx.sub p.yv with
                              | error e =>
                                simp only []
                                exact relay_ne h9 (FieldElement.sub_ne_unexpected _ _)
                              | ok y3 =>
                                simp only []
                                exact pointNew_ne_unexpected _ _ _ _
            · -- fall-through branch: its guards are contradictory
              rename_i hab hpi hqi hxy hpq hxx
              exfalso
              have hx : p.x = q.x := not_not.mp hxx
              have hy : p.y = q.y := by
                by_contra hc
                exact hxy ⟨hx, hc⟩
              have ha : p.a = q.a := by
                by_contra hc
                exact hab (Or.inl hc)
              have hb : p.b = q.b := by
                by_contra hc
                exact hab (Or.inr hc)
              have hpi2 : p.infinity = false := by simpa using hpi
              have hqi2 : q.infinity = false := by simpa using hqi
              apply hpq
              cases p
              cases q
              simp_all

theorem opp_sign_natAbs_sub {u v : Int} (h : u * v ≤ 0) :
    ((u - v).natAbs : Int) = u.natAbs + v.natAbs := by
  rcases mul_nonpos_iff.mp h with ⟨hu, hv⟩ | ⟨hu, hv⟩ <;> omega

theorem modInverseLoop_invariant (a m : Int) :
    ∀ budget : Nat, ∀ a0 m0 x0 x1 : Int, m0.natAbs < budget →
      1 ≤ a0 → 0 ≤ m0 → Int.gcd a0 m0 = 1 →
      (m ∣ a * x1 - a0) → (m ∣ a * x0 - m0) →
      a0 * (x0.natAbs : Int) + m0 * (x1.natAbs : Int) = m →
      x0 * x1 ≤ 0 → (x1.natAbs : Int) ≤ m →
      ∃ mf xf yf, modInverseLoop budget a0 m0 x0 x1 = some (1, mf, xf, yf) ∧
        (m ∣ a * yf - 1) ∧ (yf.natAbs : Int) ≤ m := by
  intro budget
  induction budget with
  | zero =>
    intro a0 m0 x0 x1 hbud
    exact absurd hbud (Nat.not_lt_zero _)
  | succ b ih =>
    intro a0 m0 x0 x1 hbud h1 hm0 hgcd hc1 hc2 hsum hsign hx1b
    rw [modInverseLoop]
    by_cases ha : a0 > 1
    · have hm0ne : m0 ≠ 0 := by
        intro h0
        rw [h0] at hgcd
        simp [Int.gcd] at hgcd
        omega
      have hm0pos : 0 < m0 := by omega
      rw [if_pos ha, if_neg hm0ne]
      have htm : a0.tmod m0 = a0 % m0 := Int.tmod_eq_emod (by omega) (by omega)
      have htd : a0.tdiv m0 = a0 / m0 := Int.tdiv_eq_ediv (by omega) (by omega)
      have hq : 0 ≤ a0 / m0 := Int.ediv_nonneg (by omega) (by omega)
      have hr0 : 0 ≤ a0 % m0 := Int.emod_nonneg _ (by omega)
      have hrlt : a0 % m0 < m0 := Int.emod_lt_of_pos _ hm0pos
      have hrdef : a0 % m0 = a0 - m0 * (a0 / m0) := Int.emod_def a0 m0
      rw [htm, htd]
      -- gcd is preserved by one Euclidean step
      have hgcd' : Int.gcd m0 (a0 % m0) = 1 := by
        have hA : ((a0.natAbs : Int)) = a0 := Int.natAbs_of_nonneg (by omega)
        have hM : ((m0.natAbs : Int)) = m0 := Int.natAbs_of_nonneg (by omega)
        have hmodcast : a0 % m0 = ((a0.natAbs % m0.natAbs : Nat) : Int) := by
          rw [Int.ofNat_emod, hA, hM]
        have : (a0 % m0).natAbs = a0.natAbs % m0.natAbs := by
          rw [hmodcast]
          exact Int.natAbs_ofNat _
        unfold Int.gcd at hgcd ⊢
        rw [this]
        rw [Nat.gcd_comm]
        rw [← Nat.gcd_rec]
        rw [Nat.gcd_comm]
        exact hgcd
      -- the two congruences
      have hc1' : m ∣ a * x0 - m0 := hc2
      have hc2' : m ∣ a * (x1 - a0 / m0 * x0) - a0 % m0 := by
        have heq : a * (x1 - a0 / m0 * x0) - a0 % m0 =
            (a * x1 - a0) - (a0 / m0) * (a * x0 - m0) := by
          rw [hrdef]; ring
        rw [heq]
        exact dvd_sub hc1 (Dvd.dvd.mul_left hc2 _)
      -- the weight identity
      have habs : (((x1 - a0 / m0 * x0).natAbs : Int)) =
          (x1.natAbs : Int) + (a0 / m0) * (x0.natAbs : Int) := by
        have hop : x1 * (a0 / m0 * x0) ≤ 0 := by
          have hrw : x1 * (a0 / m0 * x0) = (a0 / m0) * (x0 * x1) := by ring
          rw [hrw]
          have := mul_le_mul_of_nonneg_left hsign hq
          simpa using this
        have := opp_sign_natAbs_sub hop
        rw [this, Int.natAbs_mul, Nat.cast_mul, Int.natAbs_of_nonneg hq]
      have hsum' : m0 * (((x1 - a0 / m0 * x0).natAbs : Int)) +
          (a0 % m0) * ((x0.natAbs : Int)) = m := by
        rw [habs, hrdef]
        linear_combination hsum
      -- sign alternation
      have hsign' : (x1 - a0 / m0 * x0) * x0 ≤ 0 := by
        have hexp : (x1 - a0 / m0 * x0) * x0 = x0 * x1 - (a0 / m0) * x0 ^ 2 := by ring
        rw [hexp]
        have hnn : 0 ≤ (a0 / m0) * x0 ^ 2 := mul_nonneg hq (sq_nonneg x0)
        linarith
      -- bound on the new x1
      have hx0b : (x0.natAbs : Int) ≤ m := by
        have ht1 : (x0.natAbs : Int) ≤ a0 * (x0.natAbs : Int) :=
          le_mul_of_one_le_left (by positivity) (by omega)
        have ht2 : (0:Int) ≤ m0 * (x1.natAbs : Int) :=
          mul_nonneg (by omega) (by positivity)
        linarith
      exact ih m0 (a0 % m0) (x1 - a0 / m0 * x0) x0 (by omega) (by omega) hr0 hgcd'
        hc1' hc2' hsum' hsign' hx0b
    · have ha1 : a0 = 1 := by omega
      rw [if_neg ha]
      subst ha1
      exact ⟨m0, x0, x1, rfl, by simpa using hc1, hx1b⟩

theorem mod_inverse_spec {a m : Int} (hm : 2 ≤ m) (ha : 1 ≤ a)
    (hg : Int.gcd a m = 1) :
    ∃ r, mod_inverse a m = some r ∧ 0 ≤ r ∧ m ∣ a * r - 1 := by
  unfold mod_inverse
  rw [if_neg (by omega : ¬ m = 1)]
  obtain ⟨mf, xf, yf, hloop, hdvd, hbound⟩ :=
    modInverseLoop_invariant a m (m.natAbs + 1) a m 0 1 (by omega) ha (by omega) hg
      (by simp) (by simp) (by simp) (by simp) (by simp; omega)
  rw [hloop]
  refine ⟨_, rfl, ?_, ?_⟩
  · split <;> omega
  · split
    · have heq : a * (yf + m) - 1 = (a * yf - 1) + a * m := by ring
      rw [heq]
      exact dvd_add hdvd (Dvd.dvd.mul_left dvd_rfl a)
    · exact hdvd

/-- C4 counterexample: the claim literally asks for `x.mul(x.div(x)) ==
FieldElement::new(1, m)`, but `x.div(x)` is `1`, so the product is `x`
itself: at `x = FieldElement(2, 5)` the composite yields `FieldElement(2,5)`,
not `FieldElement::new(1, 5)`. -/
theorem mul_div_self_counterexample :
    (FieldElement.mk 2 5 false).truediv (FieldElement.mk 2 5 false) =
        .ok (FieldElement.mk 1 5 false) ∧
    (FieldElement.mk 2 5 false).mul (FieldElement.mk 1 5 false) =
        .ok (FieldElement.mk 2 5 false) ∧
    (Except.ok (FieldElement.mk 2 5 false) : Except String FieldElement) ≠
      FieldElement.new 1 5 := by
  refine ⟨by rfl, by rfl, by decide⟩

/-- C4 (amended): for a prime magnitude and a valid nonzero element,
`x.div(x)` itself equals the element `1` of the same field — the modular
inverse computed by the iterative extended Euclidean loop satisfies
`a * mod_inverse(a, m) ≡ 1 (mod m)`, negative results are shifted by `m`
before being returned, and `mod_inverse(a, 1)` is `0`. -/
theorem truediv_self_eq_one (x : FieldElement) (hx : x.Valid) (hp : Prime x.magnitude)
    (hnz : x.value ≠ 0) :
    x.truediv x = .ok ⟨1, x.magnitude, false⟩ ∧ ∀ b : Int, mod_inverse b 1 = some 0 := by
  have hm0 : 0 < x.magnitude := hx.pos
  have hnp : Nat.Prime x.magnitude.natAbs := Int.prime_iff_natAbs_prime.mp hp
  have hm2 : 2 ≤ x.magnitude := by
    have := hnp.two_le
    omega
  have hv1 : 1 ≤ x.value := by
    have := hx.1
    omega
  have hvlt := hx.2
  have hgcd : Int.gcd x.value x.magnitude = 1 := by
    have hnd : ¬ x.magnitude.natAbs ∣ x.value.natAbs := by
      intro hdvd
      have hvpos : 0 < x.value.natAbs := by omega
      have := Nat.le_of_dvd hvpos hdvd
      omega
    have hco := (Nat.Prime.coprime_iff_not_dvd hnp).mpr hnd
    unfold Int.gcd
    rw [Nat.gcd_comm]
    exact hco
  obtain ⟨r, hr, hr0, hdvd⟩ := mod_inverse_spec hm2 hv1 hgcd
  constructor
  · unfold FieldElement.truediv
    rw [if_neg (by omega : ¬ x.magnitude ≠ x.magnitude), hr]
    simp only []
    have hnum : (x.value * r).tmod x.magnitude = 1 := by
      rw [Int.tmod_eq_emod (mul_nonneg (by omega) hr0) (by omega)]
      have h1m : (1:Int) % x.magnitude = 1 := Int.emod_eq_of_lt (by omega) (by omega)
      have hmods : (x.value * r) % x.magnitude = 1 % x.magnitude := by
        rw [Int.emod_eq_emod_iff_emod_sub_eq_zero]
        exact Int.emod_eq_zero_of_dvd hdvd
      rw [hmods, h1m]
    rw [hnum, FieldElement.new_ok (by omega) (by omega)]
    have hdec : decide (x.magnitude ≤ 1) = false := decide_eq_false (by omega)
    rw [hdec]
    simp [hdec]
  · intro b
    unfold mod_inverse
    rw [if_pos rfl]

/-- C4 witness: `FieldElement(2,5) / FieldElement(2,5) = FieldElement(1,5)`. -/
theorem truediv_self_eq_one_witness :
    (FieldElement.mk 2 5 false).Valid ∧ Prime ((FieldElement.mk 2 5 false).magnitude) ∧
    (FieldElement.mk 2 5 false).truediv (FieldElement.mk 2 5 false) =
      .ok (FieldElement.mk 1 5 false) :=
  ⟨by decide, by norm_num [Int.prime_iff_natAbs_prime],
   (truediv_self_eq_one (FieldElement.mk 2 5 false) (by decide)
     (by norm_num [Int.prime_iff_natAbs_prime]) (by decide)).1⟩

/-- The field element with the given value in the magnitude-5 field of the
spec's worked example. -/
def fe5 (v : Int) : FieldElement := { value := v, magnitude := 5, normalized := false }

/-- The six points of the cyclic group that the spec's example base point
(1,1) generates on `y² = x³ + 2x + 3` over magnitude 5, listed so that
index `k` holds `k·P`: infinity, (1,1), (3,4), (2,0), (3,1), (1,4). -/
def tbl6 : Nat → Point
  | 0 => Point.pointAtInfinity (fe5 2) (fe5 3)
  | 1 => { x := some (fe5 1), y := some (fe5 1), a := fe5 2, b := fe5 3, infinity := false }
  | 2 => { x := some (fe5 3), y := some (fe5 4), a := fe5 2, b := fe5 3, infinity := false }
  | 3 => { x := some (fe5 2), y := some (fe5 0), a := fe5 2, b := fe5 3, infinity := false }
  | 4 => { x := some (fe5 3), y := some (fe5 1), a := fe5 2, b := fe5 3, infinity := false }
  | 5 => { x := some (fe5 1), y := some (fe5 4), a := fe5 2, b := fe5 3, infinity := false }
  | _ + 6 => Point.pointAtInfinity (fe5 2) (fe5 3)

/-- `k·P` for the example base point, read off the cycle of length 6. -/
def tbl (n : Nat) : Point := tbl6 (n % 6)

/-- The spec's example base point (1,1). -/
def P11 : Point := tbl 1

theorem add_tbl6 : ∀ i j : Fin 6, (j.val = 1 ∨ j.val = 2 ∨ j.val = 4) →
    (tbl6 i.val).add (tbl6 j.val) = .ok (tbl6 ((i.val + j.val) % 6)) := by decide

theorem add_tbl (r c : Nat) (hc : c % 6 = 1 ∨ c % 6 = 2 ∨ c % 6 = 4) :
    (tbl r).add (tbl c) = .ok (tbl (r + c)) := by
  have h6r : r % 6 < 6 := Nat.mod_lt _ (by norm_num)
  have h6c : c % 6 < 6 := Nat.mod_lt _ (by norm_num)
  have hmain := add_tbl6 ⟨r % 6, h6r⟩ ⟨c % 6, h6c⟩ hc
  unfold tbl
  rw [Nat.add_mod]
  exact hmain

theorem rmulLoop_tbl : ∀ fuel coef r c : Nat, coef ≤ fuel →
    (c % 6 = 1 ∨ c % 6 = 2 ∨ c % 6 = 4) →
    rmulLoop fuel coef (tbl c) (tbl r) = .ok (tbl (r + coef * c)) := by
  intro fuel
  induction fuel with
  | zero =>
    intro coef r c hle hc
    have hc0 : coef = 0 := by omega
    subst hc0
    rw [rmulLoop, if_neg (by omega)]
    simp
  | succ b ih =>
    intro coef r c hle hc
    rw [rmulLoop]
    by_cases h0 : coef > 0
    · rw [if_pos h0]
      have hshift : coef >>> 1 = coef / 2 := by
        rw [Nat.shiftRight_eq_div_pow, pow_one]
      have hcc : (c + c) % 6 = 1 ∨ (c + c) % 6 = 2 ∨ (c + c) % 6 = 4 := by
        rcases hc with h | h | h <;> omega
      have hdiv : coef / 2 ≤ b := by omega
      by_cases hpar : coef % 2 = 1
      · rw [if_pos (by rw [Nat.and_one_is_mod]; exact hpar), add_tbl r c hc]
        simp only []
        rw [add_tbl c c hc]
        simp only []
        rw [hshift, ih (coef / 2) (r + c) (c + c) hdiv hcc]
        have harith : r + c + coef / 2 * (c + c) = r + coef * c := by
          have hco : coef = 2 * (coef / 2) + 1 := by omega
          generalize hgen : coef / 2 = k at hco ⊢
          rw [hco]
          ring
        rw [harith]
      · rw [if_neg (by rw [Nat.and_one_is_mod]; omega)]
        simp only []
        rw [add_tbl c c hc]
        simp only []
        rw [hshift, ih (coef / 2) r (c + c) hdiv hcc]
        have harith : r + coef / 2 * (c + c) = r + coef * c := by
          have hco : coef = 2 * (coef / 2) := by omega
          generalize hgen : coef / 2 = k at hco ⊢
          rw [hco]
          ring
        rw [harith]
    · rw [if_neg h0]
      have hc0 : coef = 0 := by omega
      subst hc0
      simp

theorem iterAdd_tbl : ∀ k : Nat, iterAdd P11 k = .ok (tbl k) := by
  intro k
  induction k with
  | zero => rfl
  | succ k ih =>
    rw [iterAdd, ih]
    simp only []
    exact add_tbl k 1 (by norm_num)

theorem rmul_tbl : ∀ k : Nat, P11.rmul k = .ok (tbl k) := by
  intro k
  unfold Point.rmul
  rw [Point.new_none_none]
  simp only []
  have := rmulLoop_tbl k k 0 1 le_rfl (by norm_num)
  simpa using this

/-- The point (0,0) of the curve `y² = x³ + x` over magnitude 5: a valid
on-curve point whose doubling makes the group-law formulas break down
(`2·y = 0`, and the bugged division then produces an off-curve point that
`Point::new` rejects). -/
def P00 : Point :=
  { x := some (FieldElement.mk 0 5 false), y := some (FieldElement.mk 0 5 false),
    a := FieldElement.mk 1 5 false, b := FieldElement.mk 0 5 false, infinity := false }

/-- C3 counterexample: `P00` is a valid point (accepted by `Point::new`,
first conjunct), yet `rmul(1)` differs from one naive accumulator step:
`rmul` also computes the doubling `current + current` on its single loop
iteration and aborts on its failure, while the naive repeated-add
computation returns `P00` itself. -/
theorem rmul_iterAdd_counterexample :
    Point.new P00.x P00.y P00.a P00.b = .ok P00 ∧
    P00.rmul 1 ≠ iterAdd P00 1 := by
  constructor
  · rfl
  · decide

/-- C3 (amended): `rmul(0)` returns the point at infinity for every point;
and on the spec's worked example — base point (1,1) of `y² = x³ + 2x + 3`
over magnitude 5 — double-and-add agrees with the accumulator of `k`
repeated `add`s for every `k ≥ 0`.  The agreement does not extend to every
valid point (see the counterexample): `rmul` performs one more doubling
than the bits of `k` require, and that doubling's failure aborts `rmul`
while naive repeated addition succeeds. -/
theorem rmul_iterAdd_spec :
    (∀ p : Point, p.rmul 0 = .ok (Point.pointAtInfinity p.a p.b)) ∧
    (∀ k : Nat, P11.rmul k = iterAdd P11 k) := by
  constructor
  · intro p
    unfold Point.rmul
    rw [Point.new_none_none]
    simp only []
    rw [rmulLoop, if_neg (by omega)]
  · intro k
    rw [rmul_tbl k, iterAdd_tbl k]
